import Mathlib

/-!
# shikon: session history correlation and diff statistics

A shallow embedding of `internal/claude/history.go` and `internal/git/status.go`.

Conventions of the embedding.

* A Go `string` is a Lean `String`, read as its sequence of runes (`String.data`).
  The texts the program handles come out of `json.Unmarshal`, which only ever
  produces valid UTF-8, so a sequence of runes describes them exactly.  Go's
  `len(s)` counts bytes, not runes: it is `goLen`, the sum of the UTF-8 widths.
* A Go `[]byte` is a `List UInt8`.
* `int64` timestamps are only compared, never added, so they are `Int`.
* The line counts added up by `GetBranchDiffStat` are values of a Go integer type
  declared in another package.  The type is a parameter (`IntType`: signed or not, and
  a width), the values are `Int`, and every `+=` wraps into the range of the type.
* Library routines (`strings.TrimSpace`, `strings.ToLower`, `strings.HasPrefix`,
  `bufio.Scanner`) are embedded by what they compute on such inputs.
-/

namespace Shikon

/-! ## Go string primitives -/

/-- Number of bytes of the UTF-8 encoding of one rune (`utf8.RuneLen`). -/
def runeLen (c : Char) : Nat :=
  if c.toNat < 0x80 then 1
  else if c.toNat < 0x800 then 2
  else if c.toNat < 0x10000 then 3
  else 4

/-- Go's builtin `len` on a string: the number of bytes. -/
def goLen : List Char → Nat
  | [] => 0
  | c :: cs => runeLen c + goLen cs

/-- Go's `unicode.IsSpace`: the Latin-1 spaces and the `White_Space` table. -/
def unicodeIsSpace (c : Char) : Bool :=
  let r := c.toNat
  if r ≤ 0xFF then
    r = 0x09 || r = 0x0A || r = 0x0B || r = 0x0C || r = 0x0D || r = 0x20 || r = 0x85 || r = 0xA0
  else
    r = 0x1680 || (0x2000 ≤ r && r ≤ 0x200A) || r = 0x2028 || r = 0x2029 || r = 0x202F
      || r = 0x205F || r = 0x3000

/-- Go's `strings.TrimSpace`: the text without its leading and trailing white space. -/
def TrimSpace (s : List Char) : List Char :=
  ((s.dropWhile unicodeIsSpace).reverse.dropWhile unicodeIsSpace).reverse

/-- Go's `unicode.ToLower` as far as `isSkippable` can observe it.  The letters
`A`..`Z` go to `a`..`z`; the two runes outside ASCII whose lower case is an ASCII
letter, U+0130 and U+212A (Kelvin sign), go to `i` and `k`.  Every other rune outside ASCII has
a lower case outside ASCII and is left as it is here: the lowered text is only ever
compared with ASCII tokens, so which non-ASCII rune stands in it is never observed. -/
def unicodeToLower (c : Char) : Char :=
  if 'A'.toNat ≤ c.toNat ∧ c.toNat ≤ 'Z'.toNat then Char.ofNat (c.toNat + 32)
  else if c.toNat = 0x130 then 'i'
  else if c.toNat = 0x212A then 'k'
  else c

/-- Go's `strings.ToLower`: every rune mapped through `unicode.ToLower`. -/
def ToLower (s : List Char) : List Char :=
  s.map unicodeToLower

/-- Go's `strings.HasPrefix`. -/
def HasPrefix (s p : List Char) : Bool :=
  p.isPrefixOf s

/-! ## `internal/claude/history.go` -/

/-- One line of the history file. -/
structure HistoryEntry where
  Display : String
  Project : String
  SessionID : String
  Timestamp : Int
  deriving DecidableEq, Repr

/-- Minimum length of a prompt that is kept. -/
def minPromptLength : Nat := 10

/-- Command-like inputs that are ignored. -/
def skipPrefixes : List String :=
  ["/", "exit", "quit", "q", "go", "yes", "no", "y", "n"]

/-- The `for _, prefix := range skipPrefixes` loop of `isSkippable`, over the
tokens still to be visited; `lower` is the lowered, trimmed text. -/
def isSkippable.loop (lower : List Char) : List String → Bool
  | [] => false
  | p :: ps =>
    if p = "/" then isSkippable.loop lower ps
    else if lower = p.data || HasPrefix lower (p.data ++ [' ']) then true
    else isSkippable.loop lower ps

/-- Whether the prompt is too short or looks like a command. -/
def isSkippable (display : String) : Bool :=
  let trimmed := TrimSpace display.data
  if goLen trimmed < minPromptLength then true
  else if HasPrefix trimmed ['/'] then true
  else isSkippable.loop (ToLower trimmed) skipPrefixes

/-- Go's `unicode.ToUpper` on the runes whose upper case is an ASCII letter: `a`..`z`
go to `A`..`Z`, and the two runes outside ASCII with an ASCII upper case, U+0131
(dotless i) and U+017F (long s), go to `I` and `S`.  Other runes are left as they are
here; the code never calls it, it only serves to exhibit a change of case. -/
def unicodeToUpper (c : Char) : Char :=
  if 'a'.toNat ≤ c.toNat ∧ c.toNat ≤ 'z'.toNat then Char.ofNat (c.toNat - 32)
  else if c.toNat = 0x131 then 'I'
  else if c.toNat = 0x17F then 'S'
  else c

/-- Go's `strings.ToUpper`: every rune mapped through `unicode.ToUpper`. -/
def ToUpper (s : List Char) : List Char :=
  s.map unicodeToUpper

/-- Two runes that are equal or are the same ASCII letter in its two cases. -/
def sameUpToAsciiCase (c d : Char) : Bool :=
  c = d
    || ('A'.toNat ≤ c.toNat && c.toNat ≤ 'Z'.toNat && d.toNat = c.toNat + 32)
    || ('A'.toNat ≤ d.toNat && d.toNat ≤ 'Z'.toNat && c.toNat = d.toNat + 32)

/-- The loop of `isSkippable` without the exact-equality test: only the test for a
token followed by a space is kept. -/
def isSkippableWithoutEquality.loop (lower : List Char) : List String → Bool
  | [] => false
  | p :: ps =>
    if p = "/" then isSkippableWithoutEquality.loop lower ps
    else if HasPrefix lower (p.data ++ [' ']) then true
    else isSkippableWithoutEquality.loop lower ps

/-- The variant of `isSkippable` that keeps only the length rule, the `/` rule and the
token-followed-by-space rule. -/
def isSkippableWithoutEquality (display : String) : Bool :=
  let trimmed := TrimSpace display.data
  if goLen trimmed < minPromptLength then true
  else if HasPrefix trimmed ['/'] then true
  else isSkippableWithoutEquality.loop (ToLower trimmed) skipPrefixes

/-- The first meaningful prompt of the given worktree at or after the given time:
prompt text, session ID, and whether one was found. -/
def FindFirstPrompt : List HistoryEntry → String → Int → String × String × Bool
  | [], _, _ => ("", "", false)
  | e :: rest, worktreePath, afterTimestamp =>
    if e.Project ≠ worktreePath then FindFirstPrompt rest worktreePath afterTimestamp
    else if e.Timestamp < afterTimestamp then FindFirstPrompt rest worktreePath afterTimestamp
    else if isSkippable e.Display then FindFirstPrompt rest worktreePath afterTimestamp
    else (e.Display, e.SessionID, true)

/-! ### `ParseHistory`

`bufio.NewScanner(bytes.NewReader(data))` with the default split function
(`bufio.ScanLines`) and the default buffer limit.  Reading from a `bytes.Reader`
cannot fail, so the only error the scanner can hold at the end is `bufio.ErrTooLong`:
the buffer grows up to `bufio.MaxScanTokenSize` bytes and a line is delivered once its
terminating newline (or the end of the input) is seen with the line inside the buffer. -/

/-- The constant `bufio.MaxScanTokenSize`. -/
def MaxScanTokenSize : Nat := 64 * 1024

/-- The errors `scanner.Err()` can report here. -/
inductive ScanError where
  | ErrTooLong
  deriving DecidableEq, Repr

/-- State of a `bufio.Scanner`: the input not yet consumed, the token of the last
successful `Scan` (what `Bytes()` returns), and the error `Err()` reports. -/
structure Scanner where
  unread : List UInt8
  token : List UInt8
  err : Option ScanError
  deriving DecidableEq, Repr

/-- A fresh scanner over `data`. -/
def NewScanner (data : List UInt8) : Scanner :=
  { unread := data, token := [], err := none }

/-- The helper `dropCR` of `bufio.ScanLines`: drop one trailing carriage return. -/
def dropCR (data : List UInt8) : List UInt8 :=
  if data.getLast? = some 13 then data.dropLast else data

/-- One call of `scanner.Scan()`: whether a token was produced, and the new state.
At the end of the input it returns false and leaves the error empty; a line of
`MaxScanTokenSize` bytes or more does not fit the buffer and stops the scan with
`ErrTooLong`; otherwise the token is the next line without its newline and without a
trailing carriage return. -/
def Scanner.Scan (s : Scanner) : Bool × Scanner :=
  if s.err.isSome then (false, s)
  else if s.unread = [] then (false, s)
  else
    let line := s.unread.takeWhile (fun b => b ≠ 10)
    if MaxScanTokenSize ≤ line.length then
      (false, { s with err := some ScanError.ErrTooLong })
    else
      (true, { unread := s.unread.drop (line.length + 1), token := dropCR line, err := none })

/-- The white-space bytes of the ASCII fast path of `bytes.TrimSpace`. -/
def asciiSpace (b : UInt8) : Bool :=
  b = 9 || b = 10 || b = 11 || b = 12 || b = 13 || b = 32

/-- UTF-8 encodings of U+0085 and U+00A0. -/
def spaceRune2 (b0 b1 : UInt8) : Bool :=
  b0 = 0xC2 && (b1 = 0x85 || b1 = 0xA0)

/-- UTF-8 encodings of the white-space runes above Latin-1: U+1680, U+2000..U+200A,
U+2028, U+2029, U+202F, U+205F, U+3000. -/
def spaceRune3 (b0 b1 b2 : UInt8) : Bool :=
  (b0 = 0xE1 && b1 = 0x9A && b2 = 0x80)
    || (b0 = 0xE2 && b1 = 0x80 &&
        ((0x80 ≤ b2 && b2 ≤ 0x8A) || b2 = 0xA8 || b2 = 0xA9 || b2 = 0xAF))
    || (b0 = 0xE2 && b1 = 0x81 && b2 = 0x9F)
    || (b0 = 0xE3 && b1 = 0x80 && b2 = 0x80)

/-- The test `len(bytes.TrimSpace(line)) == 0`: the line decodes, rune after rune, into
white space only (`unicode.IsSpace`); a byte that starts no such rune ends the trim. -/
def isBlank : List UInt8 → Bool
  | [] => true
  | [b0] => asciiSpace b0
  | [b0, b1] => if asciiSpace b0 then isBlank [b1] else spaceRune2 b0 b1
  | b0 :: b1 :: b2 :: rest =>
    if asciiSpace b0 then isBlank (b1 :: b2 :: rest)
    else if spaceRune2 b0 b1 then isBlank (b2 :: rest)
    else if spaceRune3 b0 b1 b2 then isBlank rest
    else false

/-- The `for scanner.Scan()` loop of `ParseHistory`.  `unmarshal` stands for
`json.Unmarshal(line, &entry)` into a fresh entry: `none` when it returns an error.
`fuel` bounds the number of iterations; `none` is returned only when it runs out. -/
def ParseHistory.loop (unmarshal : List UInt8 → Option HistoryEntry) :
    Nat → Scanner → List HistoryEntry → Option (List HistoryEntry × Option ScanError)
  | 0, _, _ => none
  | fuel + 1, scanner, entries =>
    match scanner.Scan with
    | (false, scanner) => some (entries, scanner.err)
    | (true, scanner) =>
      let line := scanner.token
      if isBlank line then ParseHistory.loop unmarshal fuel scanner entries
      else
        match unmarshal line with
        | none => ParseHistory.loop unmarshal fuel scanner entries
        | some entry => ParseHistory.loop unmarshal fuel scanner (entries ++ [entry])

/-- Parse JSONL content into history entries; the second component is `scanner.Err()`.
Every successful `Scan` consumes at least one byte, so `data.length + 1` iterations
always suffice (`ParseHistory_returns`). -/
def ParseHistory (unmarshal : List UInt8 → Option HistoryEntry) (data : List UInt8) :
    Option (List HistoryEntry × Option ScanError) :=
  ParseHistory.loop unmarshal (data.length + 1) (NewScanner data) []

/-- Calling `Scan` until it returns false and looking at nothing but the error left in
the scanner: the outcome of the line scan on its own. -/
def Scanner.drain : Nat → Scanner → Option (Option ScanError)
  | 0, _ => none
  | fuel + 1, s =>
    match s.Scan with
    | (false, s1) => some s1.err
    | (true, s1) => Scanner.drain fuel s1

/-- A log written line by line: every line followed by a newline byte. -/
def joinLines : List (List UInt8) → List UInt8
  | [] => []
  | l :: ls => l ++ 10 :: joinLines ls

/-- What the body of the loop keeps of one raw line: nothing for a blank line or a line
that fails to decode, the decoded entry otherwise. -/
def decodeLine (unmarshal : List UInt8 → Option HistoryEntry) (l : List UInt8) :
    Option HistoryEntry :=
  if isBlank (dropCR l) then none else unmarshal (dropCR l)

/-- Bytes of an ASCII text. -/
def bytesOf (s : String) : List UInt8 :=
  s.data.map (fun c => UInt8.ofNat c.toNat)

/-- A decoder for examples: it accepts the two record lines below and nothing else. -/
def sampleUnmarshal (line : List UInt8) : Option HistoryEntry :=
  if line = bytesOf "\x7b\"display\":\"valid\",\"project\":\"/repo\",\"sessionId\":\"s1\",\"timestamp\":100\x7d" then
    some ⟨"valid", "/repo", "s1", 100⟩
  else if line = bytesOf "\x7b\"display\":\"also valid\",\"project\":\"/repo\",\"sessionId\":\"s2\",\"timestamp\":200\x7d" then
    some ⟨"also valid", "/repo", "s2", 200⟩
  else none

/-! ## `internal/git/status.go` -/

/-- A Go integer type: signed or unsigned, and its width in bits.  The fields added up
by `GetBranchDiffStat` have an integer type that is declared in the package
`internal/model`; which one it is stays a parameter. -/
structure IntType where
  signed : Bool
  bits : Nat
  deriving DecidableEq, Repr

/-- Smallest value of the type. -/
def IntType.minValue (ty : IntType) : Int :=
  if ty.signed then -(2 ^ ty.bits / 2) else 0

/-- Largest value of the type. -/
def IntType.maxValue (ty : IntType) : Int :=
  if ty.signed then 2 ^ ty.bits - 2 ^ ty.bits / 2 - 1 else 2 ^ ty.bits - 1

/-- The value of the type that an exact result is stored as: Go integer arithmetic
wraps around on overflow (two's complement for the signed types). -/
def IntType.wrap (ty : IntType) (x : Int) : Int :=
  if ty.signed then (x + 2 ^ ty.bits / 2) % 2 ^ ty.bits - 2 ^ ty.bits / 2
  else x % 2 ^ ty.bits

/-- Go's `int64`, which is also `int` on 64-bit platforms. -/
def goInt64 : IntType :=
  { signed := true, bits := 64 }

/-- Modelled from the spec: the element type of the list returned by `GetDiffNumstat`,
declared in another file of the package.  The two fields `GetBranchDiffStat` reads are
the counts of added and removed lines of the data model (ChangeEntry), values of a Go
integer type. -/
structure NumstatEntry where
  Additions : Int
  Deletions : Int
  deriving DecidableEq, Repr

/-- Modelled from the spec: `model.StatusInfo`, declared in the package `internal/model`.
`GetBranchDiffStat` writes its fields `Insertions` and `Deletions`, the totals of the
data model (StatusSummary), values of the same Go integer type. -/
structure StatusInfo where
  Insertions : Int
  Deletions : Int
  deriving DecidableEq, Repr

/-- The `for _, e := range entries` loop of `GetBranchDiffStat`; each `+=` is an addition
in the integer type `ty` of the fields. -/
def GetBranchDiffStat.loop (ty : IntType) : List NumstatEntry → StatusInfo → StatusInfo
  | [], info => info
  | e :: rest, info =>
    GetBranchDiffStat.loop ty rest
      { Insertions := ty.wrap (info.Insertions + e.Additions),
        Deletions := ty.wrap (info.Deletions + e.Deletions) }

/-- Aggregated insertion and deletion counts of a branch.  `GetDiffNumstat` is the
diff-listing collaborator, a parameter here; as in Go it returns a list and an error,
the error being `none` for `nil`.  `ty` is the integer type of the counts. -/
def GetBranchDiffStat {Runner Err : Type} (ty : IntType)
    (GetDiffNumstat : Runner → String → String → List NumstatEntry × Option Err)
    (runner : Runner) (worktreePath baseRef : String) : StatusInfo × Option Err :=
  match GetDiffNumstat runner worktreePath baseRef with
  | (_, some err) => ({ Insertions := 0, Deletions := 0 }, some err)
  | (entries, none) =>
    (GetBranchDiffStat.loop ty entries { Insertions := 0, Deletions := 0 }, none)

/-! ## Specification of `FindFirstPrompt` and `isSkippable` -/

theorem FindFirstPrompt_cons_hit (e : HistoryEntry) (rest : List HistoryEntry) (p : String)
    (t : Int) (h : e.Project = p ∧ t ≤ e.Timestamp ∧ isSkippable e.Display = false) :
    FindFirstPrompt (e :: rest) p t = (e.Display, e.SessionID, true) := by
  obtain ⟨hp, ht, hs⟩ := h
  simp [FindFirstPrompt, hp, hs, not_lt.mpr ht]

theorem FindFirstPrompt_cons_miss (e : HistoryEntry) (rest : List HistoryEntry) (p : String)
    (t : Int) (h : ¬ (e.Project = p ∧ t ≤ e.Timestamp ∧ isSkippable e.Display = false)) :
    FindFirstPrompt (e :: rest) p t = FindFirstPrompt rest p t := by
  by_cases hp : e.Project = p
  · by_cases ht : e.Timestamp < t
    · simp [FindFirstPrompt, hp, ht]
    · by_cases hs : isSkippable e.Display = true
      · simp [FindFirstPrompt, hp, ht, hs]
      · exact absurd ⟨hp, not_lt.mp ht, by simpa using hs⟩ h
  · simp [FindFirstPrompt, hp]

/-- C1: if some entry has Project equal to `p`, Timestamp at least `t` and a Display that
is not skippable, then `FindFirstPrompt entries p t` returns the Display and SessionID of
the first such entry in list order (nothing before it in the list satisfies the three
conditions), unchanged, with found = true. -/
theorem FindFirstPrompt_returns_first (entries : List HistoryEntry) (p : String) (t : Int)
    (h : ∃ e ∈ entries, e.Project = p ∧ t ≤ e.Timestamp ∧ isSkippable e.Display = false) :
    ∃ pre e post, entries = pre ++ e :: post ∧
      (e.Project = p ∧ t ≤ e.Timestamp ∧ isSkippable e.Display = false) ∧
      (∀ x ∈ pre, ¬ (x.Project = p ∧ t ≤ x.Timestamp ∧ isSkippable x.Display = false)) ∧
      FindFirstPrompt entries p t = (e.Display, e.SessionID, true) := by
  induction entries with
  | nil => simp at h
  | cons a rest ih =>
    by_cases ha : a.Project = p ∧ t ≤ a.Timestamp ∧ isSkippable a.Display = false
    · exact ⟨[], a, rest, rfl, ha, by simp, FindFirstPrompt_cons_hit a rest p t ha⟩
    · obtain ⟨e, he, hq⟩ := h
      have he2 : e ∈ rest := by
        rcases List.mem_cons.mp he with rfl | h2
        · exact absurd hq ha
        · exact h2
      obtain ⟨pre, e2, post, hsplit, hq2, hpre, hres⟩ := ih ⟨e, he2, hq⟩
      refine ⟨a :: pre, e2, post, by simp [hsplit], hq2, ?_, ?_⟩
      · intro x hx
        rcases List.mem_cons.mp hx with rfl | h2
        · exact ha
        · exact hpre x h2
      · rw [FindFirstPrompt_cons_miss a rest p t ha]
        exact hres

/-- Witness for C1 on the entries of `TestFindFirstPrompt_SkipsCommands`. -/
theorem FindFirstPrompt_returns_first_witness :
    (∃ e ∈ [(⟨"/commit -m fix", "/my/repo", "s1", 100⟩ : HistoryEntry),
             ⟨"exit", "/my/repo", "s1", 200⟩,
             ⟨"go build ./...", "/my/repo", "s1", 300⟩,
             ⟨"implement dark mode for the user profile page", "/my/repo", "s2", 400⟩],
        e.Project = "/my/repo" ∧ (0 : Int) ≤ e.Timestamp ∧ isSkippable e.Display = false) ∧
    ∃ pre e post,
      [(⟨"/commit -m fix", "/my/repo", "s1", 100⟩ : HistoryEntry),
        ⟨"exit", "/my/repo", "s1", 200⟩,
        ⟨"go build ./...", "/my/repo", "s1", 300⟩,
        ⟨"implement dark mode for the user profile page", "/my/repo", "s2", 400⟩]
        = pre ++ e :: post ∧
      (e.Project = "/my/repo" ∧ (0 : Int) ≤ e.Timestamp ∧ isSkippable e.Display = false) ∧
      (∀ x ∈ pre, ¬ (x.Project = "/my/repo" ∧ (0 : Int) ≤ x.Timestamp ∧
        isSkippable x.Display = false)) ∧
      FindFirstPrompt
        [(⟨"/commit -m fix", "/my/repo", "s1", 100⟩ : HistoryEntry),
          ⟨"exit", "/my/repo", "s1", 200⟩,
          ⟨"go build ./...", "/my/repo", "s1", 300⟩,
          ⟨"implement dark mode for the user profile page", "/my/repo", "s2", 400⟩]
        "/my/repo" 0 = (e.Display, e.SessionID, true) :=
  have h : ∃ e ∈ [(⟨"/commit -m fix", "/my/repo", "s1", 100⟩ : HistoryEntry),
             ⟨"exit", "/my/repo", "s1", 200⟩,
             ⟨"go build ./...", "/my/repo", "s1", 300⟩,
             ⟨"implement dark mode for the user profile page", "/my/repo", "s2", 400⟩],
        e.Project = "/my/repo" ∧ (0 : Int) ≤ e.Timestamp ∧ isSkippable e.Display = false :=
    ⟨⟨"implement dark mode for the user profile page", "/my/repo", "s2", 400⟩,
      by simp, by decide, by decide, by decide⟩
  ⟨h, FindFirstPrompt_returns_first _ "/my/repo" 0 h⟩

/-- C2: `FindFirstPrompt` reports found = false exactly when no entry has Project equal
to `p`, Timestamp at least `t` and a non-skippable Display (the empty list included), and
then the prompt and the session ID it returns are both the empty string. -/
theorem FindFirstPrompt_not_found_iff (entries : List HistoryEntry) (p : String) (t : Int) :
    ((FindFirstPrompt entries p t).2.2 = false ↔
      ∀ e ∈ entries, ¬ (e.Project = p ∧ t ≤ e.Timestamp ∧ isSkippable e.Display = false)) ∧
    ((FindFirstPrompt entries p t).2.2 = false → FindFirstPrompt entries p t = ("", "", false)) := by
  induction entries with
  | nil => simp [FindFirstPrompt]
  | cons a rest ih =>
    by_cases ha : a.Project = p ∧ t ≤ a.Timestamp ∧ isSkippable a.Display = false
    · rw [FindFirstPrompt_cons_hit a rest p t ha]
      constructor
      · constructor
        · intro h
          simp at h
        · intro h
          exact absurd ha (h a (List.mem_cons_self a rest))
      · intro h
        simp at h
    · rw [FindFirstPrompt_cons_miss a rest p t ha]
      refine ⟨?_, ih.2⟩
      rw [ih.1]
      constructor
      · intro h x hx
        rcases List.mem_cons.mp hx with rfl | h2
        · exact ha
        · exact h x h2
      · intro h x hx
        exact h x (List.mem_cons_of_mem a hx)

/-- Witness for C2: every entry of `/my/repo` is skippable while another project has a
meaningful prompt, and on the empty list. -/
theorem FindFirstPrompt_not_found_iff_witness :
    FindFirstPrompt
      [(⟨"fix the bug in payment processing", "/other/repo", "s1", 100⟩ : HistoryEntry),
        ⟨"exit", "/my/repo", "s2", 200⟩] "/my/repo" 0 = ("", "", false) ∧
    FindFirstPrompt [] "/my/repo" 0 = ("", "", false) :=
  ⟨(FindFirstPrompt_not_found_iff
      [(⟨"fix the bug in payment processing", "/other/repo", "s1", 100⟩ : HistoryEntry),
        ⟨"exit", "/my/repo", "s2", 200⟩] "/my/repo" 0).2 (by decide),
   (FindFirstPrompt_not_found_iff [] "/my/repo" 0).2 (by decide)⟩

theorem length_le_goLen (s : List Char) : s.length ≤ goLen s := by
  induction s with
  | nil => simp [goLen]
  | cons c cs ih =>
    have h1 : 1 ≤ runeLen c := by
      unfold runeLen
      split_ifs <;> omega
    simp only [goLen, List.length_cons]
    omega

theorem isSkippable_loop_hit (lower : List Char) (tok : String) (htok : tok ≠ "/")
    (h : lower = tok.data ∨ HasPrefix lower (tok.data ++ [' ']) = true) :
    ∀ ps : List String, tok ∈ ps → isSkippable.loop lower ps = true := by
  intro ps
  induction ps with
  | nil => simp
  | cons q qs ih =>
    intro hmem
    by_cases hq : q = "/"
    · have : tok ∈ qs := by
        rcases List.mem_cons.mp hmem with h1 | h1
        · exact absurd (h1.trans hq) htok
        · exact h1
      simp [isSkippable.loop, hq, ih this]
    · by_cases hm : lower = q.data ∨ HasPrefix lower (q.data ++ [' ']) = true
      · simp only [isSkippable.loop, if_neg hq]
        rcases hm with hm | hm <;> simp [hm]
      · have : tok ∈ qs := by
          rcases List.mem_cons.mp hmem with h1 | h1
          · exact absurd (h1 ▸ h) hm
          · exact h1
        simp only [isSkippable.loop, if_neg hq, ih this]
        simp

/-- C3 (failing input): `"こんにちは"` has five characters, fewer than ten, and no
surrounding white space, yet `isSkippable` returns false on it: the length test counts
the fifteen bytes of its UTF-8 encoding. -/
theorem isSkippable_five_runes_not_skipped :
    (TrimSpace "こんにちは".data).length = 5 ∧
    goLen (TrimSpace "こんにちは".data) = 15 ∧
    isSkippable "こんにちは" = false := by
  decide

/-- C4: a text whose trimmed form has at least 10 characters, does not begin with `/`,
and whose lowered trimmed form does not begin with one of the tokens exit, quit, q, go,
yes, no, y, n followed by a space, is not skippable. -/
theorem isSkippable_false_of_meaningful (display : String)
    (hlen : 10 ≤ (TrimSpace display.data).length)
    (hslash : HasPrefix (TrimSpace display.data) ['/'] = false)
    (htok : ∀ tok ∈ ["exit", "quit", "q", "go", "yes", "no", "y", "n"],
      HasPrefix (ToLower (TrimSpace display.data)) (String.data tok ++ [' ']) = false) :
    isSkippable display = false := by
  have hbytes : ¬ goLen (TrimSpace display.data) < minPromptLength := by
    have := length_le_goLen (TrimSpace display.data)
    unfold minPromptLength
    omega
  have hll : 10 ≤ (ToLower (TrimSpace display.data)).length := by
    simpa [ToLower] using hlen
  have hne : ∀ l : List Char, l.length < 10 → ToLower (TrimSpace display.data) ≠ l := by
    intro l hl heq
    rw [heq] at hll
    omega
  simp only [isSkippable, if_neg hbytes, hslash]
  have h1 := htok "exit" (by simp)
  have h2 := htok "quit" (by simp)
  have h3 := htok "q" (by simp)
  have h4 := htok "go" (by simp)
  have h5 := htok "yes" (by simp)
  have h6 := htok "no" (by simp)
  have h7 := htok "y" (by simp)
  have h8 := htok "n" (by simp)
  have e1 := hne "exit".data (by decide)
  have e2 := hne "quit".data (by decide)
  have e3 := hne "q".data (by decide)
  have e4 := hne "go".data (by decide)
  have e5 := hne "yes".data (by decide)
  have e6 := hne "no".data (by decide)
  have e7 := hne "y".data (by decide)
  have e8 := hne "n".data (by decide)
  simp [skipPrefixes, isSkippable.loop, e1, e2, e3, e4, e5, e6, e7, e8]
  exact ⟨by simpa using h1, by simpa using h2, by simpa using h3, by simpa using h4,
    by simpa using h5, by simpa using h6, by simpa using h7, by simpa using h8⟩

/-- Witness for C4: `"going forward"` starts with the letters of the token `go` but has
no space after them. -/
theorem isSkippable_false_of_meaningful_witness :
    10 ≤ (TrimSpace "going forward".data).length ∧
    HasPrefix (TrimSpace "going forward".data) ['/'] = false ∧
    (∀ tok ∈ ["exit", "quit", "q", "go", "yes", "no", "y", "n"],
      HasPrefix (ToLower (TrimSpace "going forward".data)) (String.data tok ++ [' ']) = false) ∧
    isSkippable "going forward" = false :=
  ⟨by decide, by decide, by decide,
    isSkippable_false_of_meaningful "going forward" (by decide) (by decide) (by decide)⟩

/-- C5: a text whose trimmed form, lowered, equals one of the tokens exit, quit, q, go,
yes, no, y, n, or begins with one of them followed by a space, is skippable. -/
theorem isSkippable_true_of_token (display : String) (tok : String)
    (htok : tok ∈ ["exit", "quit", "q", "go", "yes", "no", "y", "n"])
    (h : ToLower (TrimSpace display.data) = tok.data ∨
      HasPrefix (ToLower (TrimSpace display.data)) (tok.data ++ [' ']) = true) :
    isSkippable display = true := by
  have hne : tok ≠ "/" := by
    intro heq
    rw [heq] at htok
    revert htok
    decide
  have hmem : tok ∈ skipPrefixes := by
    unfold skipPrefixes
    exact List.mem_cons_of_mem _ htok
  unfold isSkippable
  simp only
  split_ifs
  · rfl
  · rfl
  · exact isSkippable_loop_hit _ tok hne h skipPrefixes hmem

/-- Witness for C5: `"GO build ./..."` begins, without regard to case, with `go` and a
space. -/
theorem isSkippable_true_of_token_witness :
    "go" ∈ ["exit", "quit", "q", "go", "yes", "no", "y", "n"] ∧
    (ToLower (TrimSpace "GO build ./...".data) = "go".data ∨
      HasPrefix (ToLower (TrimSpace "GO build ./...".data)) ("go".data ++ [' ']) = true) ∧
    isSkippable "GO build ./..." = true :=
  ⟨by decide, Or.inr (by decide),
    isSkippable_true_of_token "GO build ./..." "go" (by decide) (Or.inr (by decide))⟩

/-- C6: a text whose trimmed form begins with `/` is skippable, whatever its length. -/
theorem isSkippable_true_of_slash (display : String)
    (h : HasPrefix (TrimSpace display.data) ['/'] = true) :
    isSkippable display = true := by
  unfold isSkippable
  simp only [h]
  split_ifs <;> rfl

/-- Witness for C6: a slash command of more than ten characters, with white space
around it. -/
theorem isSkippable_true_of_slash_witness :
    10 ≤ (TrimSpace "  /review-pr 123 --with-a-long-argument ".data).length ∧
    HasPrefix (TrimSpace "  /review-pr 123 --with-a-long-argument ".data) ['/'] = true ∧
    isSkippable "  /review-pr 123 --with-a-long-argument " = true :=
  ⟨by decide, by decide,
    isSkippable_true_of_slash "  /review-pr 123 --with-a-long-argument " (by decide)⟩

/-! ## Specification of `ParseHistory` -/

theorem Scan_true_consumes (s s1 : Scanner) (h : s.Scan = (true, s1)) :
    s1.unread.length < s.unread.length := by
  unfold Scanner.Scan at h
  simp only at h
  split_ifs at h with h1 h2 h3
  · simp at h
  · simp at h
  · simp at h
  · simp only [Prod.mk.injEq, true_and] at h
    subst h
    have hpos : 0 < s.unread.length := List.length_pos.mpr h2
    simp only [List.length_drop]
    omega

theorem ParseHistory_loop_isSome (unmarshal : List UInt8 → Option HistoryEntry) :
    ∀ (fuel : Nat) (s : Scanner) (entries : List HistoryEntry),
      s.unread.length < fuel → (ParseHistory.loop unmarshal fuel s entries).isSome = true := by
  intro fuel
  induction fuel with
  | zero => intro s entries h; omega
  | succ n ih =>
    intro s entries h
    unfold ParseHistory.loop
    rcases hscan : s.Scan with ⟨ok, s1⟩
    cases ok with
    | false => simp
    | true =>
      have hlt := Scan_true_consumes s s1 hscan
      have hn : s1.unread.length < n := by omega
      simp only
      split_ifs
      · exact ih s1 entries hn
      · cases unmarshal s1.token with
        | none => exact ih s1 entries hn
        | some e => exact ih s1 _ hn

/-- `ParseHistory` always returns: the iteration bound of the embedding is never hit. -/
theorem ParseHistory_returns (unmarshal : List UInt8 → Option HistoryEntry)
    (data : List UInt8) : ∃ r, ParseHistory unmarshal data = some r := by
  have h := ParseHistory_loop_isSome unmarshal (data.length + 1) (NewScanner data) []
    (by simp [NewScanner])
  exact Option.isSome_iff_exists.mp h

theorem ParseHistory_loop_err (unmarshal : List UInt8 → Option HistoryEntry) :
    ∀ (fuel : Nat) (s : Scanner) (entries : List HistoryEntry),
      (ParseHistory.loop unmarshal fuel s entries).map Prod.snd = Scanner.drain fuel s := by
  intro fuel
  induction fuel with
  | zero => intro s entries; simp [ParseHistory.loop, Scanner.drain]
  | succ n ih =>
    intro s entries
    unfold ParseHistory.loop Scanner.drain
    rcases hscan : s.Scan with ⟨ok, s1⟩
    cases ok with
    | false => simp
    | true =>
      simp only
      split_ifs
      · exact ih s1 entries
      · cases unmarshal s1.token with
        | none => exact ih s1 entries
        | some e => exact ih s1 _

theorem Scan_too_long (data : List UInt8)
    (h : MaxScanTokenSize ≤ (data.takeWhile (fun b => b ≠ 10)).length) :
    (NewScanner data).Scan =
      (false, { unread := data, token := [], err := some ScanError.ErrTooLong }) := by
  have hne : data ≠ [] := by
    intro h0
    subst h0
    simp [MaxScanTokenSize] at h
  have h2 : MaxScanTokenSize ≤ (data.takeWhile (fun b => !decide (b = 10))).length := by
    simpa using h
  simp [Scanner.Scan, NewScanner, hne, h2]

theorem ParseHistory_too_long (unmarshal : List UInt8 → Option HistoryEntry)
    (data : List UInt8)
    (h : MaxScanTokenSize ≤ (data.takeWhile (fun b => b ≠ 10)).length) :
    ParseHistory unmarshal data = some ([], some ScanError.ErrTooLong) := by
  simp [ParseHistory, ParseHistory.loop, Scan_too_long data h]

theorem takeWhile_replicate_append (p : UInt8 → Bool) (a : UInt8) (hp : p a = true)
    (rest : List UInt8) :
    ∀ n : Nat, n ≤ ((List.replicate n a ++ rest).takeWhile p).length := by
  intro n
  induction n with
  | zero => simp
  | succ k ih =>
    simp only [List.replicate_succ, List.cons_append, List.takeWhile_cons, hp, if_true,
      List.length_cons]
    omega

theorem isBlank_cons_asciiSpace (b : UInt8) (hb : asciiSpace b = true) (l : List UInt8) :
    isBlank (b :: l) = isBlank l := by
  match l with
  | [] => simp [isBlank, hb]
  | [b1] => simp [isBlank, hb]
  | b1 :: b2 :: rest => simp [isBlank, hb]

theorem isBlank_replicate_space : ∀ n : Nat, isBlank (List.replicate n 32) = true := by
  intro n
  induction n with
  | zero => simp [isBlank]
  | succ k ih =>
    rw [List.replicate_succ, isBlank_cons_asciiSpace 32 (by decide), ih]

theorem takeWhile_line (l rest : List UInt8) (hl : ∀ b ∈ l, b ≠ 10) :
    (l ++ 10 :: rest).takeWhile (fun b => !decide (b = 10)) = l := by
  induction l with
  | nil => simp
  | cons a as ih =>
    have ha : a ≠ 10 := hl a (List.mem_cons_self a as)
    have has : ∀ b ∈ as, b ≠ 10 := fun b hb => hl b (List.mem_cons_of_mem a hb)
    simp [List.takeWhile_cons, ha, ih has]

theorem Scan_line (l rest tok : List UInt8) (hl : ∀ b ∈ l, b ≠ 10)
    (hlen : l.length < MaxScanTokenSize) :
    Scanner.Scan { unread := l ++ 10 :: rest, token := tok, err := none } =
      (true, { unread := rest, token := dropCR l, err := none }) := by
  have htw := takeWhile_line l rest hl
  have hne : l ++ 10 :: rest ≠ [] := by simp
  have hnot : ¬ MaxScanTokenSize ≤ l.length := by omega
  simp [Scanner.Scan, htw, hnot]

theorem ParseHistory_loop_lines (unmarshal : List UInt8 → Option HistoryEntry) :
    ∀ (lines : List (List UInt8)) (fuel : Nat) (tok : List UInt8) (entries : List HistoryEntry),
      (∀ l ∈ lines, (∀ b ∈ l, b ≠ 10) ∧ l.length < MaxScanTokenSize) →
      lines.length < fuel →
      ParseHistory.loop unmarshal fuel { unread := joinLines lines, token := tok, err := none }
          entries
        = some (entries ++ lines.filterMap (decodeLine unmarshal), none) := by
  intro lines
  induction lines with
  | nil =>
    intro fuel tok entries _ hf
    obtain ⟨n, rfl⟩ : ∃ n, fuel = n + 1 := ⟨fuel - 1, by simp at hf; omega⟩
    simp [ParseHistory.loop, joinLines, Scanner.Scan]
  | cons l ls ih =>
    intro fuel tok entries hall hf
    obtain ⟨n, rfl⟩ : ∃ n, fuel = n + 1 := ⟨fuel - 1, by simp at hf; omega⟩
    have hl := hall l (List.mem_cons_self l ls)
    have hls : ∀ x ∈ ls, (∀ b ∈ x, b ≠ 10) ∧ x.length < MaxScanTokenSize :=
      fun x hx => hall x (List.mem_cons_of_mem l hx)
    have hn : ls.length < n := by simp at hf; omega
    simp only [ParseHistory.loop, joinLines, Scan_line l (joinLines ls) tok hl.1 hl.2]
    by_cases hb : isBlank (dropCR l) = true
    · simp [hb, ih n (dropCR l) entries hls hn, decodeLine]
    · cases hu : unmarshal (dropCR l) with
      | none => simp [hb, hu, ih n (dropCR l) entries hls hn, decodeLine]
      | some e => simp [hb, hu, ih n (dropCR l) (entries ++ [e]) hls hn, decodeLine]

theorem length_le_joinLines (lines : List (List UInt8)) :
    lines.length ≤ (joinLines lines).length := by
  induction lines with
  | nil => simp
  | cons l ls ih =>
    simp only [joinLines, List.length_cons, List.length_append]
    omega

/-- On a log whose lines are all shorter than the scanner's limit, `ParseHistory` returns
the decodings of the lines that are not blank and do decode, in their order, and no
error: blank and malformed lines are skipped and the lines after them are still read. -/
theorem ParseHistory_of_short_lines (unmarshal : List UInt8 → Option HistoryEntry)
    (lines : List (List UInt8))
    (h : ∀ l ∈ lines, (∀ b ∈ l, b ≠ 10) ∧ l.length < MaxScanTokenSize) :
    ParseHistory unmarshal (joinLines lines)
      = some (lines.filterMap (decodeLine unmarshal), none) := by
  have hf : lines.length < (joinLines lines).length + 1 := by
    have := length_le_joinLines lines
    omega
  simpa [ParseHistory, NewScanner] using
    ParseHistory_loop_lines unmarshal lines ((joinLines lines).length + 1) [] [] h hf

theorem ParseHistory_of_short_lines_witness :
    ParseHistory sampleUnmarshal
      (joinLines [bytesOf "\x7b\"display\":\"valid\",\"project\":\"/repo\",\"sessionId\":\"s1\",\"timestamp\":100\x7d",
        bytesOf "not-json", bytesOf "  \r",
        bytesOf "\x7b\"display\":\"also valid\",\"project\":\"/repo\",\"sessionId\":\"s2\",\"timestamp\":200\x7d"])
      = some ([⟨"valid", "/repo", "s1", 100⟩, ⟨"also valid", "/repo", "s2", 200⟩], none) :=
  ParseHistory_of_short_lines sampleUnmarshal _ (by decide)

theorem isSkippable_true_of_short_bytes (display : String)
    (h : goLen (TrimSpace display.data) < 10) : isSkippable display = true := by
  simp [isSkippable, minPromptLength, h]

theorem goLen_ascii (s : List Char) (h : ∀ c ∈ s, c.toNat < 0x80) : goLen s = s.length := by
  induction s with
  | nil => simp [goLen]
  | cons c cs ih =>
    have hc := h c (List.mem_cons_self c cs)
    have hcs : ∀ x ∈ cs, x.toNat < 0x80 := fun x hx => h x (List.mem_cons_of_mem c hx)
    simp [goLen, runeLen, hc, ih hcs]
    omega

/-- On a text whose trimmed form is ASCII, fewer than 10 characters means skippable. -/
theorem isSkippable_true_of_short_ascii (display : String)
    (hascii : ∀ c ∈ TrimSpace display.data, c.toNat < 0x80)
    (h : (TrimSpace display.data).length < 10) : isSkippable display = true := by
  apply isSkippable_true_of_short_bytes
  rw [goLen_ascii _ hascii]
  exact h

/-- C7 (failing input): a malformed line of 65536 bytes `x`, then a line holding a
well-formed record.  The scan stops at the first line with `ErrTooLong`: whatever the
decoder makes of the second line, `ParseHistory` returns no entry at all and an error,
where the valid line should give one entry. -/
theorem ParseHistory_long_malformed_line_drops_rest
    (unmarshal : List UInt8 → Option HistoryEntry) :
    ParseHistory unmarshal
      (List.replicate 65536 120 ++ 10 ::
        (bytesOf "\x7b\"display\":\"valid\",\"project\":\"/repo\",\"sessionId\":\"s1\",\"timestamp\":100\x7d" ++ [10]))
      = some ([], some ScanError.ErrTooLong) := by
  apply ParseHistory_too_long
  have h := takeWhile_replicate_append (fun b => decide (b ≠ 10)) 120 (by decide)
    (10 :: (bytesOf "\x7b\"display\":\"valid\",\"project\":\"/repo\",\"sessionId\":\"s1\",\"timestamp\":100\x7d" ++ [10]))
    65536
  exact le_trans (by decide) h

/-- C8: whatever the decoder does, `ParseHistory` returns, and the error it returns is
the one the line scan leaves when run on its own over the same input; a line that fails
to decode therefore never produces an error. -/
theorem ParseHistory_error_is_scan_error (unmarshal : List UInt8 → Option HistoryEntry)
    (data : List UInt8) :
    ∃ entries err, ParseHistory unmarshal data = some (entries, err) ∧
      Scanner.drain (data.length + 1) (NewScanner data) = some err := by
  obtain ⟨⟨entries, err⟩, hr⟩ := ParseHistory_returns unmarshal data
  refine ⟨entries, err, hr, ?_⟩
  have h := ParseHistory_loop_err unmarshal (data.length + 1) (NewScanner data) []
  unfold ParseHistory at hr
  rw [hr] at h
  simpa using h.symm

/-- C9 (failing input): a single white-space-only line of 65536 spaces.  `ParseHistory`
returns no entry but the error `ErrTooLong`, where no error is expected. -/
theorem ParseHistory_long_blank_line_errors (unmarshal : List UInt8 → Option HistoryEntry) :
    isBlank (List.replicate 65536 32) = true ∧
    ParseHistory unmarshal (List.replicate 65536 32) = some ([], some ScanError.ErrTooLong) := by
  refine ⟨isBlank_replicate_space 65536, ?_⟩
  apply ParseHistory_too_long
  have h := takeWhile_replicate_append (fun b => decide (b ≠ 10)) 32 (by decide) [] 65536
  rw [List.append_nil] at h
  exact le_trans (by decide) h

/-! ## Specification of `GetBranchDiffStat` -/

theorem pow_bits_pos (ty : IntType) : (0 : Int) < 2 ^ ty.bits := by
  positivity

theorem wrap_add_wrap (ty : IntType) (a b : Int) :
    ty.wrap (ty.wrap a + b) = ty.wrap (a + b) := by
  unfold IntType.wrap
  split_ifs
  · have h : (a + 2 ^ ty.bits / 2) % 2 ^ ty.bits - 2 ^ ty.bits / 2 + b + 2 ^ ty.bits / 2
        = (a + 2 ^ ty.bits / 2) % 2 ^ ty.bits + b := by ring
    rw [h, Int.emod_add_emod]
    congr 2
    ring
  · rw [Int.emod_add_emod]

theorem wrap_of_in_range (ty : IntType) (x : Int) (hlo : ty.minValue ≤ x)
    (hhi : x ≤ ty.maxValue) : ty.wrap x = x := by
  have hpos := pow_bits_pos ty
  unfold IntType.wrap
  unfold IntType.minValue at hlo
  unfold IntType.maxValue at hhi
  split_ifs at hlo hhi ⊢
  · rw [Int.emod_eq_of_lt (by omega) (by omega)]
    omega
  · exact Int.emod_eq_of_lt hlo (by omega)

theorem wrap_le_maxValue (ty : IntType) (x : Int) : ty.wrap x ≤ ty.maxValue := by
  have hpos := pow_bits_pos ty
  unfold IntType.wrap IntType.maxValue
  split_ifs
  · have := Int.emod_lt_of_pos (x + 2 ^ ty.bits / 2) hpos
    omega
  · have := Int.emod_lt_of_pos x hpos
    omega

theorem wrap_zero (ty : IntType) : ty.wrap 0 = 0 := by
  have hpos := pow_bits_pos ty
  apply wrap_of_in_range
  · unfold IntType.minValue
    split_ifs
    · have : (0 : Int) ≤ 2 ^ ty.bits / 2 := Int.ediv_nonneg (le_of_lt hpos) (by norm_num)
      omega
    · exact le_refl _
  · unfold IntType.maxValue
    split_ifs
    · have : (2 : Int) ^ ty.bits / 2 < 2 ^ ty.bits :=
        Int.ediv_lt_of_lt_mul (by norm_num) (by omega)
      omega
    · omega

theorem GetBranchDiffStat_loop_wrapped (ty : IntType) (entries : List NumstatEntry) :
    ∀ a b : Int, GetBranchDiffStat.loop ty entries
        { Insertions := ty.wrap a, Deletions := ty.wrap b } =
      { Insertions := ty.wrap (a + (entries.map NumstatEntry.Additions).sum),
        Deletions := ty.wrap (b + (entries.map NumstatEntry.Deletions).sum) } := by
  induction entries with
  | nil => intro a b; simp [GetBranchDiffStat.loop]
  | cons e rest ih =>
    intro a b
    simp only [GetBranchDiffStat.loop, wrap_add_wrap, ih, List.map_cons, List.sum_cons,
      Int.add_assoc]

theorem GetBranchDiffStat_loop_zero (ty : IntType) (entries : List NumstatEntry) :
    GetBranchDiffStat.loop ty entries { Insertions := 0, Deletions := 0 } =
      { Insertions := ty.wrap (entries.map NumstatEntry.Additions).sum,
        Deletions := ty.wrap (entries.map NumstatEntry.Deletions).sum } := by
  have h := GetBranchDiffStat_loop_wrapped ty entries 0 0
  rw [wrap_zero] at h
  simpa using h

/-- C10 (counterexample): with 64-bit signed counts, the entries
`[{+9223372036854775807, -0}, {+1, -0}]` have the sum of Additions 9223372036854775808,
but the summary returned has Insertions -9223372036854775808: the addition has wrapped.
The same happens in every integer type with the entries `[{+max, -0}, {+1, -0}]`. -/
theorem GetBranchDiffStat_sum_overflows :
    GetBranchDiffStat goInt64
        (fun (_ : Unit) _ _ =>
          (([⟨9223372036854775807, 0⟩, ⟨1, 0⟩] : List NumstatEntry), (none : Option Unit)))
        () "/my/repo" "main" = (⟨-9223372036854775808, 0⟩, none) ∧
    (([⟨9223372036854775807, 0⟩, ⟨1, 0⟩] : List NumstatEntry).map NumstatEntry.Additions).sum
      = 9223372036854775808 ∧
    ∀ ty : IntType,
      (GetBranchDiffStat.loop ty [⟨ty.maxValue, 0⟩, ⟨1, 0⟩]
        { Insertions := 0, Deletions := 0 }).Insertions
        ≠ (([⟨ty.maxValue, 0⟩, ⟨1, 0⟩] : List NumstatEntry).map NumstatEntry.Additions).sum := by
  refine ⟨by decide, by decide, ?_⟩
  intro ty
  rw [GetBranchDiffStat_loop_zero]
  have h := wrap_le_maxValue ty (ty.maxValue + (1 + 0))
  simp only [List.map_cons, List.map_nil, List.sum_cons, List.sum_nil]
  intro heq
  rw [heq] at h
  omega

/-- C10 (amended): when the diff-listing collaborator returns a list of entries and no
error, `GetBranchDiffStat` returns no error and a summary whose Insertions is the sum of
the entries' Additions and whose Deletions is the sum of the entries' Deletions, both
taken in the integer type of the counts; when the two sums lie within the range of that
type they are the exact sums, every entry counted once. -/
theorem GetBranchDiffStat_sums {Runner Err : Type} (ty : IntType)
    (GetDiffNumstat : Runner → String → String → List NumstatEntry × Option Err)
    (runner : Runner) (worktreePath baseRef : String) (entries : List NumstatEntry)
    (h : GetDiffNumstat runner worktreePath baseRef = (entries, none)) :
    GetBranchDiffStat ty GetDiffNumstat runner worktreePath baseRef =
      ({ Insertions := ty.wrap (entries.map NumstatEntry.Additions).sum,
         Deletions := ty.wrap (entries.map NumstatEntry.Deletions).sum }, none) ∧
    (ty.minValue ≤ (entries.map NumstatEntry.Additions).sum →
      (entries.map NumstatEntry.Additions).sum ≤ ty.maxValue →
      ty.minValue ≤ (entries.map NumstatEntry.Deletions).sum →
      (entries.map NumstatEntry.Deletions).sum ≤ ty.maxValue →
      GetBranchDiffStat ty GetDiffNumstat runner worktreePath baseRef =
        ({ Insertions := (entries.map NumstatEntry.Additions).sum,
           Deletions := (entries.map NumstatEntry.Deletions).sum }, none)) := by
  have hmain : GetBranchDiffStat ty GetDiffNumstat runner worktreePath baseRef =
      ({ Insertions := ty.wrap (entries.map NumstatEntry.Additions).sum,
         Deletions := ty.wrap (entries.map NumstatEntry.Deletions).sum }, none) := by
    simp [GetBranchDiffStat, h, GetBranchDiffStat_loop_zero]
  refine ⟨hmain, ?_⟩
  intro h1 h2 h3 h4
  rw [hmain, wrap_of_in_range ty _ h1 h2, wrap_of_in_range ty _ h3 h4]

/-- Witness for C10 (amended), with 64-bit signed counts: the entries `[{+3,-1},{+5,-2}]`
give `{8, 3}` and the empty list gives `{0, 0}`. -/
theorem GetBranchDiffStat_sums_witness :
    GetBranchDiffStat goInt64
      (fun (_ : Unit) _ _ => (([⟨3, 1⟩, ⟨5, 2⟩] : List NumstatEntry), (none : Option Unit)))
      () "/my/repo" "main" = (⟨8, 3⟩, none) ∧
    GetBranchDiffStat goInt64
      (fun (_ : Unit) _ _ => (([] : List NumstatEntry), (none : Option Unit)))
      () "/my/repo" "main" = (⟨0, 0⟩, none) :=
  ⟨(GetBranchDiffStat_sums goInt64 (fun (_ : Unit) _ _ => ([⟨3, 1⟩, ⟨5, 2⟩], none)) ()
      "/my/repo" "main" [⟨3, 1⟩, ⟨5, 2⟩] rfl).2 (by decide) (by decide) (by decide) (by decide),
   (GetBranchDiffStat_sums goInt64 (fun (_ : Unit) _ _ => ([], none)) () "/my/repo" "main" []
      rfl).2 (by decide) (by decide) (by decide) (by decide)⟩

/-- C11: when the diff-listing collaborator returns an error, `GetBranchDiffStat`
returns that very error with the zero summary, whatever list came along with the error:
the aggregation loop is not run. -/
theorem GetBranchDiffStat_error {Runner Err : Type} (ty : IntType)
    (GetDiffNumstat : Runner → String → String → List NumstatEntry × Option Err)
    (runner : Runner) (worktreePath baseRef : String) (entries : List NumstatEntry) (err : Err)
    (h : GetDiffNumstat runner worktreePath baseRef = (entries, some err)) :
    GetBranchDiffStat ty GetDiffNumstat runner worktreePath baseRef =
      ({ Insertions := 0, Deletions := 0 }, some err) := by
  simp [GetBranchDiffStat, h]

/-- Witness for C11: a collaborator that fails while also handing back a non-empty list;
the entries are not counted. -/
theorem GetBranchDiffStat_error_witness :
    GetBranchDiffStat goInt64
      (fun (_ : Unit) _ _ => (([⟨3, 1⟩, ⟨5, 2⟩] : List NumstatEntry), some "bad revision"))
      () "/my/repo" "no-such-ref" = (⟨0, 0⟩, some "bad revision") :=
  GetBranchDiffStat_error goInt64
    (fun (_ : Unit) _ _ => ([⟨3, 1⟩, ⟨5, 2⟩], some "bad revision")) ()
    "/my/repo" "no-such-ref" [⟨3, 1⟩, ⟨5, 2⟩] "bad revision" rfl

theorem GetBranchDiffStat_loop_swap (ty : IntType) (x y : NumstatEntry)
    (rest : List NumstatEntry) (info : StatusInfo) :
    GetBranchDiffStat.loop ty (y :: x :: rest) info
      = GetBranchDiffStat.loop ty (x :: y :: rest) info := by
  simp only [GetBranchDiffStat.loop, wrap_add_wrap]
  rw [Int.add_right_comm info.Insertions y.Additions x.Additions,
    Int.add_right_comm info.Deletions y.Deletions x.Deletions]

/-- C19: the aggregation loop gives the same summary on two lists of entries that are
permutations of each other. -/
theorem GetBranchDiffStat_loop_perm (ty : IntType) (l1 l2 : List NumstatEntry)
    (info : StatusInfo) (h : l1.Perm l2) :
    GetBranchDiffStat.loop ty l1 info = GetBranchDiffStat.loop ty l2 info := by
  induction h generalizing info with
  | nil => rfl
  | cons x _ ih =>
    simp only [GetBranchDiffStat.loop]
    exact ih _
  | swap x y l => exact GetBranchDiffStat_loop_swap ty x y l info
  | trans _ _ ih1 ih2 => exact (ih1 info).trans (ih2 info)

/-- Witness for C19: two entries in either order. -/
theorem GetBranchDiffStat_loop_perm_witness :
    List.Perm [(⟨3, 1⟩ : NumstatEntry), ⟨5, 2⟩] [⟨5, 2⟩, ⟨3, 1⟩] ∧
    GetBranchDiffStat.loop goInt64 [⟨3, 1⟩, ⟨5, 2⟩] ⟨0, 0⟩
      = GetBranchDiffStat.loop goInt64 [⟨5, 2⟩, ⟨3, 1⟩] ⟨0, 0⟩ :=
  ⟨List.Perm.swap _ _ _,
    GetBranchDiffStat_loop_perm goInt64 [⟨3, 1⟩, ⟨5, 2⟩] [⟨5, 2⟩, ⟨3, 1⟩] ⟨0, 0⟩
      (List.Perm.swap _ _ _)⟩

/-! ## Order, appending and other projects in `FindFirstPrompt` -/

/-- C12: on a list ordered by non-decreasing Timestamp, when `FindFirstPrompt` reports
found = true the entry it returns (the first qualifying one of the list) is an earliest
qualifying one: no entry with Project equal to `p`, Timestamp at least `t` and a
non-skippable Display has a strictly smaller Timestamp. -/
theorem FindFirstPrompt_earliest_of_sorted (entries : List HistoryEntry) (p : String) (t : Int)
    (hsorted : entries.Pairwise (fun a b => a.Timestamp ≤ b.Timestamp))
    (hfound : (FindFirstPrompt entries p t).2.2 = true) :
    ∃ pre e post, entries = pre ++ e :: post ∧
      (e.Project = p ∧ t ≤ e.Timestamp ∧ isSkippable e.Display = false) ∧
      (∀ x ∈ pre, ¬ (x.Project = p ∧ t ≤ x.Timestamp ∧ isSkippable x.Display = false)) ∧
      FindFirstPrompt entries p t = (e.Display, e.SessionID, true) ∧
      ∀ x ∈ entries, (x.Project = p ∧ t ≤ x.Timestamp ∧ isSkippable x.Display = false) →
        ¬ x.Timestamp < e.Timestamp := by
  induction entries with
  | nil => simp [FindFirstPrompt] at hfound
  | cons a rest ih =>
    have hpw := List.pairwise_cons.mp hsorted
    by_cases ha : a.Project = p ∧ t ≤ a.Timestamp ∧ isSkippable a.Display = false
    · refine ⟨[], a, rest, rfl, ha, by simp, FindFirstPrompt_cons_hit a rest p t ha, ?_⟩
      intro x hx _
      rcases List.mem_cons.mp hx with rfl | h2
      · exact lt_irrefl _
      · exact not_lt.mpr (hpw.1 x h2)
    · rw [FindFirstPrompt_cons_miss a rest p t ha] at hfound
      obtain ⟨pre, e, post, hsplit, hq, hpre, hres, hmin⟩ := ih hpw.2 hfound
      refine ⟨a :: pre, e, post, by simp [hsplit], hq, ?_, ?_, ?_⟩
      · intro x hx
        rcases List.mem_cons.mp hx with rfl | h2
        · exact ha
        · exact hpre x h2
      · rw [FindFirstPrompt_cons_miss a rest p t ha]
        exact hres
      · intro x hx hqx
        rcases List.mem_cons.mp hx with rfl | h2
        · exact absurd hqx ha
        · exact hmin x h2 hqx

/-- Witness for C12 on the ordered entries of `TestFindFirstPrompt_MatchByTimestamp`. -/
theorem FindFirstPrompt_earliest_of_sorted_witness :
    ∃ pre e post,
      [(⟨"old prompt that should be ignored here", "/my/repo", "s1", 100⟩ : HistoryEntry),
        ⟨"new prompt after worktree creation", "/my/repo", "s2", 300⟩,
        ⟨"a later prompt in the same worktree", "/my/repo", "s3", 400⟩] = pre ++ e :: post ∧
      (e.Project = "/my/repo" ∧ (200 : Int) ≤ e.Timestamp ∧ isSkippable e.Display = false) ∧
      (∀ x ∈ pre, ¬ (x.Project = "/my/repo" ∧ (200 : Int) ≤ x.Timestamp ∧
        isSkippable x.Display = false)) ∧
      FindFirstPrompt
        [(⟨"old prompt that should be ignored here", "/my/repo", "s1", 100⟩ : HistoryEntry),
          ⟨"new prompt after worktree creation", "/my/repo", "s2", 300⟩,
          ⟨"a later prompt in the same worktree", "/my/repo", "s3", 400⟩] "/my/repo" 200
        = (e.Display, e.SessionID, true) ∧
      ∀ x ∈ [(⟨"old prompt that should be ignored here", "/my/repo", "s1", 100⟩ : HistoryEntry),
          ⟨"new prompt after worktree creation", "/my/repo", "s2", 300⟩,
          ⟨"a later prompt in the same worktree", "/my/repo", "s3", 400⟩],
        (x.Project = "/my/repo" ∧ (200 : Int) ≤ x.Timestamp ∧ isSkippable x.Display = false) →
          ¬ x.Timestamp < e.Timestamp :=
  FindFirstPrompt_earliest_of_sorted _ "/my/repo" 200 (by decide) (by decide)

/-- C14: there is a list of entries not ordered by Timestamp on which `FindFirstPrompt`
returns the qualifying entry that comes first in the list although another qualifying
entry has a smaller Timestamp. -/
theorem FindFirstPrompt_first_not_earliest :
    ∃ (e1 e2 : HistoryEntry) (p : String) (t : Int),
      ¬ [e1, e2].Pairwise (fun a b => a.Timestamp ≤ b.Timestamp) ∧
      (e1.Project = p ∧ t ≤ e1.Timestamp ∧ isSkippable e1.Display = false) ∧
      (e2.Project = p ∧ t ≤ e2.Timestamp ∧ isSkippable e2.Display = false) ∧
      FindFirstPrompt [e1, e2] p t = (e1.Display, e1.SessionID, true) ∧
      e2.Timestamp < e1.Timestamp ∧
      FindFirstPrompt [e1, e2] p t ≠ (e2.Display, e2.SessionID, true) :=
  ⟨⟨"prompt written into the log first", "/my/repo", "s1", 300⟩,
    ⟨"prompt with the smaller timestamp", "/my/repo", "s2", 100⟩, "/my/repo", 0,
    by decide, by decide, by decide, by decide, by decide, by decide⟩

theorem FindFirstPrompt_append_left (a b : List HistoryEntry) (p : String) (t : Int)
    (h : (FindFirstPrompt a p t).2.2 = true) :
    FindFirstPrompt (a ++ b) p t = FindFirstPrompt a p t := by
  induction a with
  | nil => simp [FindFirstPrompt] at h
  | cons x xs ih =>
    by_cases hx : x.Project = p ∧ t ≤ x.Timestamp ∧ isSkippable x.Display = false
    · rw [List.cons_append, FindFirstPrompt_cons_hit x (xs ++ b) p t hx,
        FindFirstPrompt_cons_hit x xs p t hx]
    · rw [FindFirstPrompt_cons_miss x xs p t hx] at h
      rw [List.cons_append, FindFirstPrompt_cons_miss x (xs ++ b) p t hx,
        FindFirstPrompt_cons_miss x xs p t hx]
      exact ih h

theorem FindFirstPrompt_append_right (a b : List HistoryEntry) (p : String) (t : Int)
    (h : (FindFirstPrompt a p t).2.2 = false) :
    FindFirstPrompt (a ++ b) p t = FindFirstPrompt b p t := by
  induction a with
  | nil => simp
  | cons x xs ih =>
    by_cases hx : x.Project = p ∧ t ≤ x.Timestamp ∧ isSkippable x.Display = false
    · rw [FindFirstPrompt_cons_hit x xs p t hx] at h
      simp at h
    · rw [FindFirstPrompt_cons_miss x xs p t hx] at h
      rw [List.cons_append, FindFirstPrompt_cons_miss x (xs ++ b) p t hx]
      exact ih h

/-- C17: appending to the log never changes an answer already found.  If
`FindFirstPrompt a p t` reports found = true then `FindFirstPrompt (a ++ b) p t` is the
same result (same prompt, same session ID); if it reports found = false then
`FindFirstPrompt (a ++ b) p t` is `FindFirstPrompt b p t`. -/
theorem FindFirstPrompt_append (a b : List HistoryEntry) (p : String) (t : Int) :
    ((FindFirstPrompt a p t).2.2 = true →
      FindFirstPrompt (a ++ b) p t = FindFirstPrompt a p t) ∧
    ((FindFirstPrompt a p t).2.2 = false →
      FindFirstPrompt (a ++ b) p t = FindFirstPrompt b p t) :=
  ⟨FindFirstPrompt_append_left a b p t, FindFirstPrompt_append_right a b p t⟩

/-- Witness for C17: an answer found in the first part is kept, and a first part without
an answer hands over to the appended part. -/
theorem FindFirstPrompt_append_witness :
    FindFirstPrompt
      ([(⟨"add user settings page to the dashboard", "/my/repo", "s1", 100⟩ : HistoryEntry)] ++
        [⟨"refactor the authentication module", "/my/repo", "s2", 200⟩]) "/my/repo" 0
      = FindFirstPrompt
        [(⟨"add user settings page to the dashboard", "/my/repo", "s1", 100⟩ : HistoryEntry)]
        "/my/repo" 0 ∧
    FindFirstPrompt
      ([(⟨"exit", "/my/repo", "s1", 100⟩ : HistoryEntry)] ++
        [⟨"refactor the authentication module", "/my/repo", "s2", 200⟩]) "/my/repo" 0
      = FindFirstPrompt
        [(⟨"refactor the authentication module", "/my/repo", "s2", 200⟩ : HistoryEntry)]
        "/my/repo" 0 :=
  ⟨(FindFirstPrompt_append
      [(⟨"add user settings page to the dashboard", "/my/repo", "s1", 100⟩ : HistoryEntry)]
      [⟨"refactor the authentication module", "/my/repo", "s2", 200⟩] "/my/repo" 0).1 (by decide),
   (FindFirstPrompt_append [(⟨"exit", "/my/repo", "s1", 100⟩ : HistoryEntry)]
      [⟨"refactor the authentication module", "/my/repo", "s2", 200⟩] "/my/repo" 0).2 (by decide)⟩

theorem FindFirstPrompt_filter_project (entries : List HistoryEntry) (p : String) (t : Int) :
    FindFirstPrompt entries p t
      = FindFirstPrompt (entries.filter (fun e => decide (e.Project = p))) p t := by
  induction entries with
  | nil => rfl
  | cons x xs ih =>
    by_cases hp : x.Project = p
    · rw [List.filter_cons_of_pos (by simpa using hp)]
      by_cases hx : x.Project = p ∧ t ≤ x.Timestamp ∧ isSkippable x.Display = false
      · rw [FindFirstPrompt_cons_hit x xs p t hx, FindFirstPrompt_cons_hit x _ p t hx]
      · rw [FindFirstPrompt_cons_miss x xs p t hx, FindFirstPrompt_cons_miss x _ p t hx]
        exact ih
    · rw [List.filter_cons_of_neg (by simpa using hp),
        FindFirstPrompt_cons_miss x xs p t (fun h => hp h.1)]
      exact ih

/-- C18: entries of other projects never influence the result.  `FindFirstPrompt` on a
list equals `FindFirstPrompt` on its sub-list of the entries whose Project is `p`, so an
entry with another Project, inserted or removed anywhere, leaves the result unchanged. -/
theorem FindFirstPrompt_ignores_other_projects (entries : List HistoryEntry) (p : String)
    (t : Int) :
    FindFirstPrompt entries p t
      = FindFirstPrompt (entries.filter (fun e => decide (e.Project = p))) p t ∧
    ∀ (pre post : List HistoryEntry) (x : HistoryEntry), entries = pre ++ post →
      x.Project ≠ p → FindFirstPrompt (pre ++ x :: post) p t = FindFirstPrompt entries p t := by
  refine ⟨FindFirstPrompt_filter_project entries p t, ?_⟩
  intro pre post x hsplit hx
  rw [FindFirstPrompt_filter_project (pre ++ x :: post) p t,
    FindFirstPrompt_filter_project entries p t, hsplit]
  simp [List.filter_append, List.filter_cons, hx]

/-- Witness for C18: an entry of another project put in front of the list of
`TestFindFirstPrompt_MatchByProject`. -/
theorem FindFirstPrompt_ignores_other_projects_witness :
    FindFirstPrompt
      ([] ++ (⟨"fix auth in other repo", "/other/repo", "s1", 100⟩ : HistoryEntry) ::
        [⟨"add user settings page to the dashboard", "/my/repo", "s2", 200⟩]) "/my/repo" 0
      = FindFirstPrompt
        [(⟨"add user settings page to the dashboard", "/my/repo", "s2", 200⟩ : HistoryEntry)]
        "/my/repo" 0 :=
  (FindFirstPrompt_ignores_other_projects
    [(⟨"add user settings page to the dashboard", "/my/repo", "s2", 200⟩ : HistoryEntry)]
    "/my/repo" 0).2 [] _ ⟨"fix auth in other repo", "/other/repo", "s1", 100⟩ rfl (by decide)

/-! ## `isSkippable` and the trimmed text -/

theorem TrimSpace_pad (s lead trail : List Char)
    (hl : ∀ c ∈ lead, unicodeIsSpace c = true) (ht : ∀ c ∈ trail, unicodeIsSpace c = true) :
    TrimSpace (lead ++ s ++ trail) = TrimSpace s := by
  unfold TrimSpace
  rw [List.append_assoc, List.dropWhile_append_of_pos hl, List.dropWhile_append]
  have htr : ∀ c ∈ trail.reverse, unicodeIsSpace c = true := by
    intro c hc
    exact ht c (List.mem_reverse.mp hc)
  by_cases he : (List.dropWhile unicodeIsSpace s).isEmpty = true
  · have h1 : List.dropWhile unicodeIsSpace s = [] := List.isEmpty_iff.mp he
    have h2 : List.dropWhile unicodeIsSpace trail = [] := List.dropWhile_eq_nil_iff.mpr ht
    simp [h1, h2]
  · simp only [he, Bool.false_eq_true, if_false, List.reverse_append]
    rw [List.dropWhile_append_of_pos htr]

theorem TrimSpace_decompose (s : List Char) :
    ∃ lead trail, (∀ c ∈ lead, unicodeIsSpace c = true) ∧
      (∀ c ∈ trail, unicodeIsSpace c = true) ∧ s = lead ++ TrimSpace s ++ trail := by
  refine ⟨s.takeWhile unicodeIsSpace,
    (((s.dropWhile unicodeIsSpace).reverse).takeWhile unicodeIsSpace).reverse, ?_, ?_, ?_⟩
  · intro c hc
    exact List.mem_takeWhile_imp hc
  · intro c hc
    exact List.mem_takeWhile_imp (List.mem_reverse.mp hc)
  · unfold TrimSpace
    rw [List.append_assoc, ← List.reverse_append, List.takeWhile_append_dropWhile,
      List.reverse_reverse, List.takeWhile_append_dropWhile]

theorem TrimSpace_idempotent (s : List Char) : TrimSpace (TrimSpace s) = TrimSpace s := by
  obtain ⟨lead, trail, hl, ht, hs⟩ := TrimSpace_decompose s
  have h := TrimSpace_pad (TrimSpace s) lead trail hl ht
  rw [← hs] at h
  exact h.symm

/-- C15: `isSkippable` depends only on the trimmed text.  Two texts with the same trimmed
form get the same answer; in particular white space added in front of and behind a text,
or all of its surrounding white space removed, does not change the answer. -/
theorem isSkippable_depends_on_trimmed (display : String) :
    (∀ other : String, TrimSpace other.data = TrimSpace display.data →
      isSkippable other = isSkippable display) ∧
    (∀ lead trail : List Char, (∀ c ∈ lead, unicodeIsSpace c = true) →
      (∀ c ∈ trail, unicodeIsSpace c = true) →
      isSkippable (String.mk (lead ++ display.data ++ trail)) = isSkippable display) ∧
    isSkippable (String.mk (TrimSpace display.data)) = isSkippable display := by
  have hgen : ∀ other : String, TrimSpace other.data = TrimSpace display.data →
      isSkippable other = isSkippable display := by
    intro other h
    unfold isSkippable
    rw [h]
  refine ⟨hgen, ?_, ?_⟩
  · intro lead trail hl ht
    exact hgen _ (TrimSpace_pad display.data lead trail hl ht)
  · exact hgen _ (TrimSpace_idempotent display.data)

/-- Witness for C15: a text of twelve characters of which ten are surrounding white
space is judged by its two trimmed characters, like the bare text. -/
theorem isSkippable_depends_on_trimmed_witness :
    isSkippable (String.mk ("     ".data ++ "hi".data ++ "     ".data)) = isSkippable "hi" ∧
    isSkippable "hi" = true ∧
    isSkippable (String.mk (" \t".data ++ "fix the login redirect bug".data ++ "\n".data))
      = isSkippable "fix the login redirect bug" ∧
    isSkippable "fix the login redirect bug" = false :=
  ⟨(isSkippable_depends_on_trimmed "hi").2.1 "     ".data "     ".data (by decide) (by decide),
    by decide,
    (isSkippable_depends_on_trimmed "fix the login redirect bug").2.1 " \t".data "\n".data
      (by decide) (by decide),
    by decide⟩

/-! ## The exact-equality test of `isSkippable` -/

theorem runeLen_le_two_of_lower (c d : Char) (h : unicodeToLower c = d)
    (hd : d.toNat < 0x80) (hk : d ≠ 'k') : runeLen c ≤ 2 := by
  unfold unicodeToLower at h
  unfold runeLen
  split_ifs at h with h1 h2 h3
  · have : c.toNat ≤ 90 := h1.2
    split_ifs <;> omega
  · split_ifs
    all_goals omega
  · exact absurd h.symm hk
  · subst h
    split_ifs
    all_goals omega

theorem goLen_le_of_lower (l ds : List Char) (h : ToLower l = ds)
    (hds : ∀ d ∈ ds, d.toNat < 0x80 ∧ d ≠ 'k') : goLen l ≤ 2 * ds.length := by
  induction l generalizing ds with
  | nil => simp [goLen]
  | cons c cs ih =>
    cases ds with
    | nil => simp [ToLower] at h
    | cons d ds2 =>
      simp only [ToLower, List.map_cons, List.cons.injEq] at h
      have hc := runeLen_le_two_of_lower c d h.1 (hds d (List.mem_cons_self d ds2)).1
        (hds d (List.mem_cons_self d ds2)).2
      have hrest := ih ds2 h.2 (fun x hx => hds x (List.mem_cons_of_mem d hx))
      simp only [goLen, List.length_cons]
      omega

theorem token_forces_short (l : List Char) (tok : String)
    (htok : tok ∈ ["exit", "quit", "q", "go", "yes", "no", "y", "n"])
    (h : ToLower l = tok.data) : goLen l < minPromptLength := by
  have key : ∀ x ∈ ["exit", "quit", "q", "go", "yes", "no", "y", "n"],
      (∀ d ∈ String.data x, d.toNat < 0x80 ∧ d ≠ 'k') ∧ (String.data x).length ≤ 4 := by
    decide
  have hds := key tok htok
  have := goLen_le_of_lower l tok.data h hds.1
  unfold minPromptLength
  omega

theorem isSkippable_loop_without_equality (lower : List Char)
    (hne : ∀ tok ∈ ["exit", "quit", "q", "go", "yes", "no", "y", "n"], lower ≠ String.data tok) :
    isSkippable.loop lower skipPrefixes = isSkippableWithoutEquality.loop lower skipPrefixes := by
  have e1 := hne "exit" (by simp)
  have e2 := hne "quit" (by simp)
  have e3 := hne "q" (by simp)
  have e4 := hne "go" (by simp)
  have e5 := hne "yes" (by simp)
  have e6 := hne "no" (by simp)
  have e7 := hne "y" (by simp)
  have e8 := hne "n" (by simp)
  simp [skipPrefixes, isSkippable.loop, isSkippableWithoutEquality.loop,
    e1, e2, e3, e4, e5, e6, e7, e8]

/-- C16: the exact-equality test of `isSkippable` is redundant.  Every token is shorter
than 10 characters; a text whose lowered trimmed form equals a token has fewer than 10
bytes and is already caught by the length rule; and `isSkippable` agrees on every input
with the variant that keeps only the length rule, the `/` rule and the
token-followed-by-space rule. -/
theorem isSkippable_equality_test_redundant (display : String) :
    (∀ tok ∈ skipPrefixes, tok.length < minPromptLength) ∧
    (∀ tok ∈ ["exit", "quit", "q", "go", "yes", "no", "y", "n"],
      ToLower (TrimSpace display.data) = String.data tok →
        goLen (TrimSpace display.data) < minPromptLength) ∧
    isSkippable display = isSkippableWithoutEquality display := by
  refine ⟨by decide, fun tok htok h => token_forces_short _ tok htok h, ?_⟩
  unfold isSkippable isSkippableWithoutEquality
  simp only
  by_cases hlen : goLen (TrimSpace display.data) < minPromptLength
  · simp [hlen]
  · rw [if_neg hlen, if_neg hlen,
      isSkippable_loop_without_equality (ToLower (TrimSpace display.data))
        (fun tok htok heq => hlen (token_forces_short _ tok htok heq))]

/-! ## `isSkippable` and the case of letters -/

theorem sameUpToAsciiCase_cases (c d : Char) (h : sameUpToAsciiCase c d = true) :
    c = d ∨ (65 ≤ c.toNat ∧ c.toNat ≤ 90 ∧ d.toNat = c.toNat + 32) ∨
      (65 ≤ d.toNat ∧ d.toNat ≤ 90 ∧ c.toNat = d.toNat + 32) := by
  unfold sameUpToAsciiCase at h
  simp only [Bool.or_eq_true, Bool.and_eq_true, decide_eq_true_eq] at h
  rcases h with (h | h) | h
  · exact Or.inl h
  · exact Or.inr (Or.inl ⟨h.1.1, h.1.2, h.2⟩)
  · exact Or.inr (Or.inr ⟨h.1.1, h.1.2, h.2⟩)

theorem unicodeIsSpace_ascii_letter (c : Char) (h : 65 ≤ c.toNat ∧ c.toNat ≤ 122) :
    unicodeIsSpace c = false := by
  unfold unicodeIsSpace
  have h1 : c.toNat ≤ 0xFF := by omega
  simp only [h1, if_true]
  simp
  omega

theorem unicodeToLower_upper_letter (c d : Char) (h1 : 65 ≤ c.toNat) (h2 : c.toNat ≤ 90)
    (hd : d.toNat = c.toNat + 32) : unicodeToLower c = unicodeToLower d := by
  have hc : unicodeToLower c = Char.ofNat (c.toNat + 32) := by
    unfold unicodeToLower
    rw [if_pos ⟨h1, h2⟩]
  have hdd : unicodeToLower d = d := by
    unfold unicodeToLower
    have a1 : ¬ ('A'.toNat ≤ d.toNat ∧ d.toNat ≤ 'Z'.toNat) := by
      intro hh
      have : d.toNat ≤ 90 := hh.2
      omega
    have a2 : ¬ d.toNat = 0x130 := by omega
    have a3 : ¬ d.toNat = 0x212A := by omega
    rw [if_neg a1, if_neg a2, if_neg a3]
  rw [hc, hdd, ← hd, Char.ofNat_toNat]

theorem runeLen_ascii (c : Char) (h : c.toNat < 0x80) : runeLen c = 1 := by
  unfold runeLen
  rw [if_pos h]

theorem sameUpToAsciiCase_space (c d : Char) (h : sameUpToAsciiCase c d = true) :
    unicodeIsSpace c = unicodeIsSpace d := by
  rcases sameUpToAsciiCase_cases c d h with h | ⟨h1, h2, h3⟩ | ⟨h1, h2, h3⟩
  · rw [h]
  · rw [unicodeIsSpace_ascii_letter c (by omega), unicodeIsSpace_ascii_letter d (by omega)]
  · rw [unicodeIsSpace_ascii_letter c (by omega), unicodeIsSpace_ascii_letter d (by omega)]

theorem sameUpToAsciiCase_runeLen (c d : Char) (h : sameUpToAsciiCase c d = true) :
    runeLen c = runeLen d := by
  rcases sameUpToAsciiCase_cases c d h with h | ⟨h1, h2, h3⟩ | ⟨h1, h2, h3⟩
  · rw [h]
  · rw [runeLen_ascii c (by omega), runeLen_ascii d (by omega)]
  · rw [runeLen_ascii c (by omega), runeLen_ascii d (by omega)]

theorem sameUpToAsciiCase_lower (c d : Char) (h : sameUpToAsciiCase c d = true) :
    unicodeToLower c = unicodeToLower d := by
  rcases sameUpToAsciiCase_cases c d h with h | ⟨h1, h2, h3⟩ | ⟨h1, h2, h3⟩
  · rw [h]
  · exact unicodeToLower_upper_letter c d h1 h2 h3
  · exact (unicodeToLower_upper_letter d c h1 h2 h3).symm

theorem sameUpToAsciiCase_slash (c d : Char) (h : sameUpToAsciiCase c d = true) :
    (c = '/') ↔ (d = '/') := by
  rcases sameUpToAsciiCase_cases c d h with h | ⟨h1, h2, h3⟩ | ⟨h1, h2, h3⟩
  · rw [h]
  · constructor
    · intro hc
      rw [hc] at h1
      have : ('/' : Char).toNat = 47 := by decide
      omega
    · intro hdd
      rw [hdd] at h3
      have : ('/' : Char).toNat = 47 := by decide
      omega
  · constructor
    · intro hc
      rw [hc] at h3
      have : ('/' : Char).toNat = 47 := by decide
      omega
    · intro hdd
      rw [hdd] at h1
      have : ('/' : Char).toNat = 47 := by decide
      omega

theorem sameCase_dropWhile (l1 l2 : List Char)
    (h : List.Forall₂ (fun c d => sameUpToAsciiCase c d = true) l1 l2) :
    List.Forall₂ (fun c d => sameUpToAsciiCase c d = true)
      (l1.dropWhile unicodeIsSpace) (l2.dropWhile unicodeIsSpace) := by
  induction h with
  | nil => exact List.Forall₂.nil
  | @cons c d cs ds hcd hrest ih =>
    have hsp := sameUpToAsciiCase_space c d hcd
    by_cases hc : unicodeIsSpace c = true
    · rw [List.dropWhile_cons_of_pos hc, List.dropWhile_cons_of_pos (hsp ▸ hc)]
      exact ih
    · have hd : ¬ unicodeIsSpace d = true := hsp ▸ hc
      rw [List.dropWhile_cons_of_neg hc, List.dropWhile_cons_of_neg hd]
      exact List.Forall₂.cons hcd hrest

theorem sameCase_TrimSpace (l1 l2 : List Char)
    (h : List.Forall₂ (fun c d => sameUpToAsciiCase c d = true) l1 l2) :
    List.Forall₂ (fun c d => sameUpToAsciiCase c d = true) (TrimSpace l1) (TrimSpace l2) := by
  unfold TrimSpace
  exact List.forall₂_reverse_iff.mpr
    (sameCase_dropWhile _ _ (List.forall₂_reverse_iff.mpr (sameCase_dropWhile l1 l2 h)))

theorem sameCase_goLen (l1 l2 : List Char)
    (h : List.Forall₂ (fun c d => sameUpToAsciiCase c d = true) l1 l2) :
    goLen l1 = goLen l2 := by
  induction h with
  | nil => rfl
  | @cons c d cs ds hcd _ ih =>
    simp only [goLen, ih, sameUpToAsciiCase_runeLen c d hcd]

theorem sameCase_ToLower (l1 l2 : List Char)
    (h : List.Forall₂ (fun c d => sameUpToAsciiCase c d = true) l1 l2) :
    ToLower l1 = ToLower l2 := by
  induction h with
  | nil => rfl
  | @cons c d cs ds hcd _ ih =>
    unfold ToLower at ih ⊢
    simp only [List.map_cons, ih, sameUpToAsciiCase_lower c d hcd]

theorem sameCase_slash (l1 l2 : List Char)
    (h : List.Forall₂ (fun c d => sameUpToAsciiCase c d = true) l1 l2) :
    HasPrefix l1 ['/'] = HasPrefix l2 ['/'] := by
  cases h with
  | nil => rfl
  | @cons c d cs ds hcd _ =>
    have hs := sameUpToAsciiCase_slash c d hcd
    by_cases hc : c = '/'
    · have hd : d = '/' := hs.mp hc
      simp [HasPrefix, List.isPrefixOf, hc, hd]
    · have hd : ¬ d = '/' := fun hd => hc (hs.mpr hd)
      have hc2 : ¬ '/' = c := fun e => hc e.symm
      have hd2 : ¬ '/' = d := fun e => hd e.symm
      simp [HasPrefix, List.isPrefixOf, hc2, hd2]

/-- C13 (counterexample): upper-casing the text `exıt the program`, whose third letter is
the dotless i U+0131, gives `EXIT THE PROGRAM`; the first is not skippable, the second
is.  Changing the case of a letter has changed the result. -/
theorem isSkippable_case_changes_result :
    ToUpper "exıt the program".data = "EXIT THE PROGRAM".data ∧
    isSkippable "exıt the program" = false ∧
    isSkippable "EXIT THE PROGRAM" = true := by
  decide

/-- C13 (amended): `isSkippable` does not depend on the case of ASCII letters.  Two texts
that agree rune by rune, except that a letter `A`..`Z` may stand where the other has the
same letter `a`..`z`, get the same answer. -/
theorem isSkippable_ascii_case_insensitive (s1 s2 : String)
    (h : List.Forall₂ (fun c d => sameUpToAsciiCase c d = true) s1.data s2.data) :
    isSkippable s1 = isSkippable s2 := by
  have ht := sameCase_TrimSpace s1.data s2.data h
  unfold isSkippable
  simp only [sameCase_goLen _ _ ht, sameCase_ToLower _ _ ht, sameCase_slash _ _ ht]

/-- Witness for C13 (amended): `go build ./...` against `GO BUILD ./...`. -/
theorem isSkippable_ascii_case_insensitive_witness :
    List.Forall₂ (fun c d => sameUpToAsciiCase c d = true)
      "go build ./...".data "GO BUILD ./...".data ∧
    isSkippable "go build ./..." = isSkippable "GO BUILD ./..." :=
  ⟨by decide, isSkippable_ascii_case_insensitive "go build ./..." "GO BUILD ./..." (by decide)⟩

/-! ## The cases pinned by the repository's tests -/

/-- The table of `TestIsSkippable`. -/
theorem TestIsSkippable_table :
    isSkippable "short" = true ∧ isSkippable "" = true ∧ isSkippable "a" = true ∧
    isSkippable "/commit" = true ∧ isSkippable "/review-pr 123" = true ∧
    isSkippable "exit" = true ∧ isSkippable "quit" = true ∧
    isSkippable "go build ./..." = true ∧ isSkippable "yes" = true ∧
    isSkippable "no" = true ∧ isSkippable "y" = true ∧ isSkippable "n" = true ∧
    isSkippable "implement the dark mode feature" = false ∧
    isSkippable "fix the login redirect bug" = false := by
  decide

/-- The case of `TestFindFirstPrompt_MatchByTimestamp`. -/
theorem TestFindFirstPrompt_MatchByTimestamp_case :
    FindFirstPrompt
      [⟨"old prompt that should be ignored here", "/my/repo", "s1", 100⟩,
        ⟨"new prompt after worktree creation", "/my/repo", "s2", 300⟩] "/my/repo" 200
      = ("new prompt after worktree creation", "s2", true) := by
  decide

end Shikon
